import Mathlib

/-!
Verification of the React compound-components / searchable-list repository.

The embedded code comes from the repository's README (the authoritative code
excerpts cited by the specification) and from `src/App.jsx`:

* Accordion: `const [openItemId, setOpenItemId] = useState();` together with
  `toggleItem: (id) => setOpenItemId(prevId => prevId === id ? null : id)`,
  and `AccordionContent` renders open iff the ambient item id strictly equals
  `openItemId`.
* SearchableList: debounced `handleChange` built from `setTimeout` /
  `clearTimeout` through the `lastChange` ref, and the filter
  `items.filter(item => JSON.stringify(item).toLowerCase()
     .includes(searchTerm.toLowerCase()))`.
-/

namespace ReactPatterns

/-! ### Accordion open-state model

`openItemId` is a JavaScript value that is `undefined` initially (the
`useState()` call has no argument), `null` after closing an open panel, and a
panel-id string while a panel is open.  JavaScript strict equality `===`
between such a value and a panel-id string holds exactly when the value is
that string. -/

/-- JavaScript value held by the `openItemId` state variable: `undefined`,
`null`, or a panel-id string. -/
inductive JsVal where
  | undef : JsVal
  | null : JsVal
  | str : String → JsVal
deriving DecidableEq, Repr

/-- Initial value of `openItemId`: `useState()` with no argument gives
`undefined`. -/
def initOpenItemId : JsVal := JsVal.undef

/-- The updater from the README:
`toggleItem: (id) => setOpenItemId(prevId => prevId === id ? null : id)`.
Strict equality `prevId === id` with `id` a string holds iff `prevId` is that
very string. -/
def toggleItem (id : String) (prevId : JsVal) : JsVal :=
  if prevId = JsVal.str id then JsVal.null else JsVal.str id

/-- AccordionContent's visibility test: the ambient item id is compared with
`openItemId` (strict equality); the content renders open iff they match. -/
def contentIsOpen (openItemId : JsVal) (id : String) : Bool :=
  openItemId = JsVal.str id

/-- Abstraction of the concrete `openItemId` value to the specification's
`openId : PanelId | none`: both `undefined` and `null` are the closed state. -/
def absState (v : JsVal) : Option String :=
  match v with
  | JsVal.str s => some s
  | _ => none

/-- Modelled from the spec: **ToggleOperation** — pure function
`(currentOpenId, targetId) → newOpenId`: returns none if
`targetId == currentOpenId`, else returns `targetId`. -/
def toggleSpec (currentOpenId : Option String) (targetId : String) : Option String :=
  if currentOpenId = some targetId then none else some targetId

/-- Result of applying a sequence of `toggleItem` calls to the initial
(`undefined`) state, leftmost call first. -/
def runToggles (ids : List String) : JsVal :=
  ids.foldl (fun s id => toggleItem id s) initOpenItemId

/-! ### SearchableList filter model -/

/-- JavaScript `String.prototype.toLowerCase` (character-wise; the data in
this repository is ASCII, where `Char.toLower` agrees with JavaScript). -/
def jsToLower (s : String) : String := String.mk (s.data.map Char.toLower)

/-- JavaScript `haystack.includes(needle)`: substring containment (the empty
needle is contained in everything). -/
def jsIncludes (hay needle : String) : Bool := decide (needle.data <:+: hay.data)

/-- The per-item test of the filter from the README:
`JSON.stringify(item).toLowerCase().includes(searchTerm.toLowerCase())`,
parametrised by the serialization of the item type. -/
def matchesTerm (stringify : α → String) (searchTerm : String) (item : α) : Bool :=
  jsIncludes (jsToLower (stringify item)) (jsToLower searchTerm)

/-- The filter from the README:
`items.filter(item => JSON.stringify(item).toLowerCase()
   .includes(searchTerm.toLowerCase()))`. -/
def searchResults (stringify : α → String) (items : List α) (searchTerm : String) :
    List α :=
  items.filter (matchesTerm stringify searchTerm)

/-- Items of the shape used by the spec's filter-correctness example:
`{id:1,text:"Amazon River"}`. -/
structure SpecItem where
  id : Nat
  text : String
deriving DecidableEq, Repr

/-- `JSON.stringify` of a `SpecItem`: keys in insertion order, the numeric
`id` unquoted, the `text` string quoted (no escapes occur in the data used). -/
def stringifySpecItem (it : SpecItem) : String :=
  "\x7b\"id\":" ++ toString it.id ++ ",\"text\":\"" ++ it.text ++ "\"\x7d"

/-- Items of the `PLACES` collection in `src/App.jsx`: string `id`, bundled
`image` URL, `title`, `description`. -/
structure PlaceItem where
  id : String
  image : String
  title : String
  description : String
deriving DecidableEq, Repr

/-- `JSON.stringify` of a `PlaceItem`: keys in insertion order, all four
values quoted strings (the field values used contain no JSON escapes; the
`image` value is an opaque bundler-generated URL). -/
def stringifyPlace (p : PlaceItem) : String :=
  "\x7b\"id\":\"" ++ p.id ++ "\",\"image\":\"" ++ p.image ++ "\",\"title\":\"" ++
    p.title ++ "\",\"description\":\"" ++ p.description ++ "\"\x7d"

/-- The `PLACES` collection of `src/App.jsx`.  The five `image` values are
bundler-generated URLs unknown at source level, so they are parameters. -/
def PLACES (img1 img2 img3 img4 img5 : String) : List PlaceItem :=
  [⟨"african-savanna", img1, "African Savanna", "Experience the beauty of nature."⟩,
   ⟨"amazon-river", img2, "Amazon River", "Get to know the largest river in the world."⟩,
   ⟨"caribbean-beach", img3, "Caribbean Beach", "Enjoy the sun and the beach."⟩,
   ⟨"desert-dunes", img4, "Desert Dunes", "Discover the desert life."⟩,
   ⟨"forest-waterfall", img5, "Forest Waterfall", "Listen to the sound of the water."⟩]

/-! ### SearchableList debounce model

The README's debounce:
```
const lastChange = useRef();
const [searchTerm, setSearchTerm] = useState("");
function handleChange(event) {
    if (lastChange.current) { clearTimeout(lastChange.current); }
    lastChange.current = setTimeout(() => {
        lastChange.current = null;
        setSearchTerm(event.target.value);
    }, 500);
}
```
is modelled against an explicit JavaScript timer table: `setTimeout` hands
out fresh positive integer handles (so the `if (lastChange.current)`
truthiness test is exactly the `isSome` test), `clearTimeout` removes a
timer by handle, and firing a due timer runs the callback above, which
nulls the ref and commits the text.  The callback reads
`event.target.value` at fire time; since any later keystroke cancels the
timer, the input's value when an armed timer fires equals the text of the
keystroke that armed it, so storing the text at scheduling time is
observationally identical.  The component registers no unmount cleanup, so
the `unmount` event leaves the timer table untouched. -/

/-- A live timer in the JavaScript environment: its `setTimeout` handle, its
absolute fire time (scheduling time + 500ms), and the text its callback will
commit. -/
structure TimerEntry where
  handle : Nat
  fireTime : Nat
  value : String
deriving DecidableEq, Repr

/-- A record of one run of the deferred commit callback (one invocation of
`setSearchTerm` by a fired debounce timer): the handle of the timer that
fired, the time it fired, and the committed text. -/
structure CommitEntry where
  handle : Nat
  time : Nat
  value : String
deriving DecidableEq, Repr

/-- State of one `SearchableList` instance together with its slice of the
JavaScript environment. -/
structure SLState where
  searchTerm : String
  lastChange : Option Nat
  timers : List TimerEntry
  nextHandle : Nat
  commits : List CommitEntry
  mounted : Bool
deriving DecidableEq, Repr

/-- Freshly mounted instance: `searchTerm` starts `""`, the `lastChange` ref
is `undefined`, no timers live, handles start at 1 (browser timeout ids are
positive). -/
def initSL : SLState :=
  { searchTerm := "", lastChange := none, timers := [], nextHandle := 1,
    commits := [], mounted := true }

/-- JavaScript `clearTimeout(h)`: removes the timer with handle `h`. -/
def jsClearTimeout (s : SLState) (h : Nat) : SLState :=
  { s with timers := s.timers.filter (fun e => e.handle != h) }

/-- JavaScript `setTimeout(cb, 500)` issued at time `t`: arms a fresh timer
and returns its handle. -/
def jsSetTimeout (s : SLState) (fireTime : Nat) (v : String) : Nat × SLState :=
  (s.nextHandle,
   { s with timers := s.timers ++ [⟨s.nextHandle, fireTime, v⟩],
            nextHandle := s.nextHandle + 1 })

/-- The README's `handleChange`, run for a keystroke at time `t` whose input
value is `text`: clear the previous timeout if the ref is truthy, arm a new
500ms timeout, store its handle in the ref. -/
def handleChange (s : SLState) (t : Nat) (text : String) : SLState :=
  let s1 := match s.lastChange with
    | some h => jsClearTimeout s h
    | none => s
  let p := jsSetTimeout s1 (t + 500) text
  { p.2 with lastChange := some p.1 }

/-- Run the debounce callback of timer `e`:
`lastChange.current = null; setSearchTerm(value)`; the invocation is logged
in `commits`. -/
def runCallback (s : SLState) (e : TimerEntry) : SLState :=
  { s with lastChange := none,
           searchTerm := e.value,
           commits := s.commits ++ [⟨e.handle, e.fireTime, e.value⟩] }

/-- Let real time advance to `t`: every timer due by `t` fires (the debounce
callback schedules nothing, so one pass terminates). -/
def fireDue (s : SLState) (t : Nat) : SLState :=
  (s.timers.filter (fun e => decide (e.fireTime ≤ t))).foldl runCallback
    { s with timers := s.timers.filter (fun e => !decide (e.fireTime ≤ t)) }

/-- Let real time run to the end: every remaining timer fires. -/
def flushAll (s : SLState) : SLState :=
  s.timers.foldl runCallback { s with timers := [] }

/-- External events: a keystroke (time, input text) or the destruction of the
instance. -/
inductive SLEvent where
  | key : Nat → String → SLEvent
  | unmount : Nat → SLEvent
deriving DecidableEq, Repr

/-- Process one event: time first advances to the event's moment (due timers
fire), then the event acts.  A keystroke runs `handleChange`; unmounting
marks the instance dead and — exactly as in the README code, which registers
no cleanup — leaves the timer table untouched. -/
def stepEvent (s : SLState) (ev : SLEvent) : SLState :=
  match ev with
  | SLEvent.key t text => handleChange (fireDue s t) t text
  | SLEvent.unmount t => { fireDue s t with mounted := false }

/-- Process a time-ordered list of events. -/
def runEvents (s : SLState) (evs : List SLEvent) : SLState :=
  evs.foldl stepEvent s

/-! ### Theorems about the claims C1, C2, C3, C10 -/

/-- C1 counterexample: from prior open-state `OpenOn("a")`, calling
`toggle("b")` twice does not return the open-state to its pre-call value: the
code ends Closed (`null`), not `OpenOn("a")` — even after identifying the two
closed representations through `absState`. -/
theorem C1_toggle_pair_counterexample :
    ¬ (absState (toggleItem "b" (toggleItem "b" (JsVal.str "a"))) =
        absState (JsVal.str "a")) := by
  decide

/-- C1 (amended): `toggle(id)` twice returns the open-state (viewed through
`absState`, which identifies the closed representations `undefined` and
`null`) to its pre-call value exactly when the prior state is Closed or
`OpenOn(id)` with the same id; from `OpenOn(id2)` with `id2 ≠ id` the pair of
calls instead leaves the state Closed. -/
theorem C1_toggle_pair_amended :
    (∀ (prev : JsVal) (id : String), absState prev = none ∨ prev = JsVal.str id →
      absState (toggleItem id (toggleItem id prev)) = absState prev) ∧
    (∀ (id id2 : String), id ≠ id2 →
      absState (toggleItem id (toggleItem id (JsVal.str id2))) = none) := by
  constructor
  · rintro prev id (h | h)
    · cases prev with
      | str s => simp [absState] at h
      | undef => simp [toggleItem, absState]
      | null => simp [toggleItem, absState]
    · subst h
      simp [toggleItem, absState]
  · intro id id2 h
    have h2 : ¬ (id2 = id) := fun hc => h hc.symm
    simp [toggleItem, absState, h2]

/-- C2: the code's `toggleItem`, viewed through the open-state abstraction,
refines the specification's pure ToggleOperation: it returns none when the
target equals the currently open id and the target id in every other case,
for every current state (including both closed representations) and every
target. -/
theorem C2_toggle_refines_spec (prev : JsVal) (target : String) :
    absState (toggleItem target prev) = toggleSpec (absState prev) target := by
  cases prev with
  | undef => simp [toggleItem, absState, toggleSpec]
  | null => simp [toggleItem, absState, toggleSpec]
  | str s =>
      by_cases h : s = target <;>
        simp [toggleItem, absState, toggleSpec, h]

/-- C3: after any finite sequence of `toggleItem` calls starting from the
initial (Closed) state, at most one panel id passes AccordionContent's
open test against the resulting `openItemId`. -/
theorem C3_single_open_invariant (ids : List String) (id1 id2 : String)
    (h1 : contentIsOpen (runToggles ids) id1 = true)
    (h2 : contentIsOpen (runToggles ids) id2 = true) : id1 = id2 := by
  cases hs : runToggles ids with
  | undef => rw [hs] at h1; simp [contentIsOpen] at h1
  | null => rw [hs] at h1; simp [contentIsOpen] at h1
  | str s =>
      rw [hs] at h1 h2
      simp only [contentIsOpen, decide_eq_true_eq, JsVal.str.injEq] at h1 h2
      rw [← h1, ← h2]

/-- C3 witness: the single-open invariant applied at the concrete toggle
sequence `["a"]` and panel id `"a"`. -/
theorem C3_single_open_invariant_witness : "a" = "a" :=
  C3_single_open_invariant ["a"] "a" "a" (by decide) (by decide)

/-- C10: the Closed accordion state has two distinct concrete
representations: `openItemId` is `undefined` initially and `null` after
closing an open panel; both fail AccordionContent's strict-equality open test
against every panel id, so every panel renders closed in both. -/
theorem C10_two_closed_representations :
    initOpenItemId = JsVal.undef ∧
    (∀ id : String, toggleItem id (JsVal.str id) = JsVal.null) ∧
    JsVal.undef ≠ JsVal.null ∧
    (∀ id : String, contentIsOpen JsVal.undef id = false ∧
      contentIsOpen JsVal.null id = false) := by
  refine ⟨rfl, fun id => ?_, by decide, fun id => ⟨rfl, rfl⟩⟩
  simp [toggleItem]

/-! ### Theorems about the claims C6 and C7 -/

/-- C6: over the items `[{id:1,text:"Amazon River"},{id:2,text:"African
Savanna"}]`, the filter with committed term `"ama"` returns exactly the
singleton `id:1` item, and with the empty committed term returns both items
in their original order. -/
theorem C6_filter_correctness :
    searchResults stringifySpecItem
        [⟨1, "Amazon River"⟩, ⟨2, "African Savanna"⟩] "ama" =
      [⟨1, "Amazon River"⟩] ∧
    searchResults stringifySpecItem
        [⟨1, "Amazon River"⟩, ⟨2, "African Savanna"⟩] "" =
      [⟨1, "Amazon River"⟩, ⟨2, "African Savanna"⟩] := by
  constructor <;> decide

/-- C7: filtering with the empty committed term is the identity on every item
collection under every serialization: the lowercase-substring test with the
empty string accepts every item. -/
theorem C7_empty_term_identity {α : Type} (stringify : α → String)
    (items : List α) : searchResults stringify items "" = items := by
  simp [searchResults, matchesTerm, jsIncludes, jsToLower]

/-! ### Theorem about the claim C9 -/

/-- Substring matching against a lowered string is preserved by appending more
text on the right. -/
theorem jsIncludes_append_right (pre suf n : String)
    (h : jsIncludes (jsToLower pre) n = true) :
    jsIncludes (jsToLower (pre ++ suf)) n = true := by
  simp only [jsIncludes, decide_eq_true_eq] at h ⊢
  have hd : (jsToLower (pre ++ suf)).data
      = (jsToLower pre).data ++ (jsToLower suf).data := by
    simp [jsToLower, String.data_append]
  rw [hd]
  exact h.trans (List.prefix_append _ _).isInfix

/-- C9: matching tests the full JSON serialization of each item, key names
and non-display fields included: for every choice of the five bundled image
URLs, the term `"id"` (which occurs in the key name shared by all items)
matches every `PLACES` item, and the term `"amazon-river"` (which occurs only
in the `id` field of the Amazon River item — its display title has a space,
not a hyphen) matches that item. -/
theorem C9_full_serialization_matching :
    (∀ (img1 img2 img3 img4 img5 : String),
      ∀ p ∈ PLACES img1 img2 img3 img4 img5,
        matchesTerm stringifyPlace "id" p = true) ∧
    (∀ img : String,
      matchesTerm stringifyPlace "amazon-river"
        ⟨"amazon-river", img, "Amazon River",
          "Get to know the largest river in the world."⟩ = true) := by
  constructor
  · intro img1 img2 img3 img4 img5 p hp
    simp only [PLACES, List.mem_cons, List.not_mem_nil, or_false] at hp
    rcases hp with h | h | h | h | h <;> subst h <;>
      · simp only [matchesTerm, stringifyPlace]
        iterate 6 apply jsIncludes_append_right
        decide
  · intro img
    simp only [matchesTerm, stringifyPlace]
    iterate 6 apply jsIncludes_append_right
    decide

/-! ### Theorems about the claims C4 and C5 -/

/-- C4: for keystrokes `"h"` at t=0, `"he"` at t=100 and `"hel"` at t=200
with the 500ms delay, the committed term changes exactly once over the whole
run — one single commit, at t=700, to `"hel"` (so neither `"h"` nor `"he"` is
ever committed); just before, at t=699, the observable term is still `""`
with no commit yet; and in general `handleChange` never mutates `searchTerm`
or produces a commit synchronously. -/
theorem C4_debounce_coalescing :
    (flushAll (runEvents initSL
        [SLEvent.key 0 "h", SLEvent.key 100 "he", SLEvent.key 200 "hel"])).commits =
      [⟨3, 700, "hel"⟩] ∧
    (flushAll (runEvents initSL
        [SLEvent.key 0 "h", SLEvent.key 100 "he", SLEvent.key 200 "hel"])).searchTerm =
      "hel" ∧
    (fireDue (runEvents initSL
        [SLEvent.key 0 "h", SLEvent.key 100 "he", SLEvent.key 200 "hel"]) 699).searchTerm =
      "" ∧
    (fireDue (runEvents initSL
        [SLEvent.key 0 "h", SLEvent.key 100 "he", SLEvent.key 200 "hel"]) 699).commits =
      [] ∧
    (∀ (s : SLState) (t : Nat) (text : String),
      (handleChange s t text).searchTerm = s.searchTerm ∧
      (handleChange s t text).commits = s.commits) := by
  refine ⟨by decide, by decide, by decide, by decide, fun s t text => ?_⟩
  cases h : s.lastChange <;>
    simp [handleChange, jsSetTimeout, jsClearTimeout, h]

/-- C5: the README's `SearchableList` registers no unmount cleanup, so
destroying the instance while a debounce timer is pending does *not* prevent
the deferred commit: with a keystroke at t=200 and the unmount at t=300, the
timer is still live at teardown and its callback runs once afterwards, at
t=700 — the claim's required zero post-teardown invocations is violated by
the code. -/
theorem C5_commit_fires_after_teardown :
    (runEvents initSL [SLEvent.key 200 "hel", SLEvent.unmount 300]).mounted = false ∧
    (runEvents initSL [SLEvent.key 200 "hel", SLEvent.unmount 300]).timers =
      [⟨1, 700, "hel"⟩] ∧
    (flushAll (runEvents initSL [SLEvent.key 200 "hel", SLEvent.unmount 300])).commits =
      [⟨1, 700, "hel"⟩] := by
  refine ⟨by decide, by decide, by decide⟩

/-! ### Theorem about the claim C8

Helper equations for the fields of the model's operations, the reachability
invariant tying the `lastChange` ref to the timer table, and the fact that a
handle removed from the table below the issuing counter can never commit. -/

theorem foldl_runCallback_timers (l : List TimerEntry) (s : SLState) :
    (l.foldl runCallback s).timers = s.timers := by
  induction l generalizing s with
  | nil => rfl
  | cons e l ih => rw [List.foldl_cons, ih]; rfl

theorem foldl_runCallback_nextHandle (l : List TimerEntry) (s : SLState) :
    (l.foldl runCallback s).nextHandle = s.nextHandle := by
  induction l generalizing s with
  | nil => rfl
  | cons e l ih => rw [List.foldl_cons, ih]; rfl

theorem foldl_runCallback_commits (l : List TimerEntry) (s : SLState) :
    (l.foldl runCallback s).commits =
      s.commits ++ l.map (fun e => ⟨e.handle, e.fireTime, e.value⟩) := by
  induction l generalizing s with
  | nil => simp
  | cons e l ih => rw [List.foldl_cons, ih]; simp [runCallback]

theorem fireDue_timers (s : SLState) (t : Nat) :
    (fireDue s t).timers = s.timers.filter (fun e => !decide (e.fireTime ≤ t)) :=
  foldl_runCallback_timers _ _

theorem fireDue_nextHandle (s : SLState) (t : Nat) :
    (fireDue s t).nextHandle = s.nextHandle :=
  foldl_runCallback_nextHandle _ _

theorem fireDue_commits (s : SLState) (t : Nat) :
    (fireDue s t).commits = s.commits ++
      (s.timers.filter (fun e => decide (e.fireTime ≤ t))).map
        (fun e => ⟨e.handle, e.fireTime, e.value⟩) :=
  foldl_runCallback_commits _ _

theorem flushAll_timers (s : SLState) : (flushAll s).timers = [] :=
  foldl_runCallback_timers _ _

theorem flushAll_nextHandle (s : SLState) : (flushAll s).nextHandle = s.nextHandle :=
  foldl_runCallback_nextHandle _ _

theorem flushAll_commits (s : SLState) :
    (flushAll s).commits =
      s.commits ++ s.timers.map (fun e => ⟨e.handle, e.fireTime, e.value⟩) :=
  foldl_runCallback_commits _ _

theorem handleChange_commits (s : SLState) (t : Nat) (text : String) :
    (handleChange s t text).commits = s.commits := by
  cases hl : s.lastChange <;>
    simp [handleChange, jsSetTimeout, jsClearTimeout, hl]

theorem handleChange_nextHandle (s : SLState) (t : Nat) (text : String) :
    (handleChange s t text).nextHandle = s.nextHandle + 1 := by
  cases hl : s.lastChange <;>
    simp [handleChange, jsSetTimeout, jsClearTimeout, hl]

theorem handleChange_timers (s : SLState) (t : Nat) (text : String) :
    (handleChange s t text).timers =
      (match s.lastChange with
        | some h2 => s.timers.filter (fun e => e.handle != h2)
        | none => s.timers) ++ [⟨s.nextHandle, t + 500, text⟩] := by
  cases hl : s.lastChange <;>
    simp [handleChange, jsSetTimeout, jsClearTimeout, hl]

/-- Reachability invariant of the debounce state: the `lastChange` ref points
at every live timer (hence there is at most one), all issued handles are below
the `nextHandle` counter, and the handle of a timer that already fired (and
was logged in `commits`) is never back in the table. -/
structure Winv (s : SLState) : Prop where
  len : s.timers.length ≤ 1
  last : ∀ e ∈ s.timers, s.lastChange = some e.handle
  hlt : ∀ e ∈ s.timers, e.handle < s.nextHandle
  clt : ∀ c ∈ s.commits, c.handle < s.nextHandle
  disj : ∀ c ∈ s.commits, ∀ e ∈ s.timers, c.handle ≠ e.handle

theorem Winv_initSL : Winv initSL :=
  ⟨by simp [initSL], by simp [initSL], by simp [initSL], by simp [initSL],
   by simp [initSL]⟩

theorem Winv_fireDue (s : SLState) (t : Nat) (inv : Winv s) : Winv (fireDue s t) := by
  cases hs : s.timers with
  | nil =>
      have he : fireDue s t = { s with timers := [] } := by simp [fireDue, hs]
      rw [he]
      exact ⟨by simp, by simp, by simp, inv.clt, by simp⟩
  | cons e rest =>
      have hlen := inv.len
      rw [hs] at hlen
      simp only [List.length_cons] at hlen
      have hr : rest = [] := List.length_eq_zero.mp (by omega)
      subst hr
      have hmem : e ∈ s.timers := by rw [hs]; exact List.mem_cons_self e []
      by_cases hdue : e.fireTime ≤ t
      · have he2 : fireDue s t = runCallback { s with timers := [] } e := by
          simp [fireDue, hs, hdue]
        rw [he2]
        refine ⟨by simp [runCallback], by simp [runCallback],
          by simp [runCallback], ?_, by simp [runCallback]⟩
        intro c hc
        simp only [runCallback, List.mem_append, List.mem_singleton] at hc
        rcases hc with hc | hc
        · exact inv.clt c hc
        · subst hc; exact inv.hlt e hmem
      · have he2 : fireDue s t = { s with timers := [e] } := by
          simp [fireDue, hs, hdue]
        rw [he2]
        refine ⟨by simp, ?_, ?_, inv.clt, ?_⟩
        · intro e2 he2m
          simp only [List.mem_singleton] at he2m
          rw [he2m]
          exact inv.last e hmem
        · intro e2 he2m
          simp only [List.mem_singleton] at he2m
          rw [he2m]
          exact inv.hlt e hmem
        · intro c hc e2 he2m
          simp only [List.mem_singleton] at he2m
          rw [he2m]
          exact inv.disj c hc e hmem

theorem handleChange_eq_of_inv (s : SLState) (t : Nat) (text : String) (inv : Winv s) :
    handleChange s t text =
      { searchTerm := s.searchTerm, lastChange := some s.nextHandle,
        timers := [⟨s.nextHandle, t + 500, text⟩], nextHandle := s.nextHandle + 1,
        commits := s.commits, mounted := s.mounted } := by
  cases hl : s.lastChange with
  | none =>
      have ht : s.timers = [] := by
        cases hs : s.timers with
        | nil => rfl
        | cons e r =>
            have hcontr := inv.last e (by rw [hs]; exact List.mem_cons_self e r)
            rw [hl] at hcontr
            cases hcontr
      simp [handleChange, jsSetTimeout, jsClearTimeout, hl, ht]
  | some h =>
      have ht : s.timers.filter (fun e => e.handle != h) = [] := by
        rw [List.filter_eq_nil_iff]
        intro e hmem
        have heq := inv.last e hmem
        rw [hl] at heq
        have heq2 : e.handle = h := by
          injection heq.symm
        simp [heq2]
      simp [handleChange, jsSetTimeout, jsClearTimeout, hl, ht]

theorem Winv_handleChange (s : SLState) (t : Nat) (text : String) (inv : Winv s) :
    Winv (handleChange s t text) := by
  rw [handleChange_eq_of_inv s t text inv]
  refine ⟨by simp, ?_, ?_, ?_, ?_⟩
  · intro e he
    simp only [List.mem_singleton] at he
    subst he
    rfl
  · intro e he
    simp only [List.mem_singleton] at he
    subst he
    exact Nat.lt_succ_self _
  · intro c hc
    exact Nat.lt_succ_of_lt (inv.clt c hc)
  · intro c hc e he
    simp only [List.mem_singleton] at he
    subst he
    exact Nat.ne_of_lt (inv.clt c hc)

theorem Winv_stepEvent (s : SLState) (ev : SLEvent) (inv : Winv s) :
    Winv (stepEvent s ev) := by
  cases ev with
  | key t text => exact Winv_handleChange _ t text (Winv_fireDue s t inv)
  | unmount t =>
      have h := Winv_fireDue s t inv
      exact ⟨h.len, h.last, h.hlt, h.clt, h.disj⟩

theorem Winv_runEvents (evs : List SLEvent) (s : SLState) (inv : Winv s) :
    Winv (runEvents s evs) := by
  induction evs generalizing s with
  | nil => exact inv
  | cons ev evs ih => exact ih _ (Winv_stepEvent s ev inv)

/-- Once a handle is out of the timer table and below the issuing counter, no
present or future commit can carry it. -/
def NeverFires (h : Nat) (s : SLState) : Prop :=
  (∀ c ∈ s.commits, c.handle ≠ h) ∧ (∀ e ∈ s.timers, e.handle ≠ h) ∧ h < s.nextHandle

theorem NeverFires_fireDue (h : Nat) (s : SLState) (t : Nat)
    (nf : NeverFires h s) : NeverFires h (fireDue s t) := by
  obtain ⟨nc, nt, nh⟩ := nf
  refine ⟨?_, ?_, ?_⟩
  · intro c hc
    rw [fireDue_commits] at hc
    rcases List.mem_append.mp hc with hc | hc
    · exact nc c hc
    · obtain ⟨e, he, rfl⟩ := List.mem_map.mp hc
      exact nt e (List.mem_of_mem_filter he)
  · intro e he
    rw [fireDue_timers] at he
    exact nt e (List.mem_of_mem_filter he)
  · rw [fireDue_nextHandle]; exact nh

theorem NeverFires_flushAll (h : Nat) (s : SLState)
    (nf : NeverFires h s) : NeverFires h (flushAll s) := by
  obtain ⟨nc, nt, nh⟩ := nf
  refine ⟨?_, ?_, ?_⟩
  · intro c hc
    rw [flushAll_commits] at hc
    rcases List.mem_append.mp hc with hc | hc
    · exact nc c hc
    · obtain ⟨e, he, rfl⟩ := List.mem_map.mp hc
      exact nt e he
  · intro e he
    rw [flushAll_timers] at he
    cases he
  · rw [flushAll_nextHandle]; exact nh

theorem NeverFires_handleChange (h : Nat) (s : SLState) (t : Nat) (text : String)
    (nf : NeverFires h s) : NeverFires h (handleChange s t text) := by
  obtain ⟨nc, nt, nh⟩ := nf
  refine ⟨?_, ?_, ?_⟩
  · intro c hc
    rw [handleChange_commits] at hc
    exact nc c hc
  · intro e he
    rw [handleChange_timers] at he
    rcases List.mem_append.mp he with he | he
    · cases hl : s.lastChange with
      | none => rw [hl] at he; exact nt e he
      | some h2 => rw [hl] at he; exact nt e (List.mem_of_mem_filter he)
    · simp only [List.mem_singleton] at he
      subst he
      exact Nat.ne_of_gt nh
  · rw [handleChange_nextHandle]
    exact Nat.lt_succ_of_lt nh

theorem NeverFires_stepEvent (h : Nat) (s : SLState) (ev : SLEvent)
    (nf : NeverFires h s) : NeverFires h (stepEvent s ev) := by
  cases ev with
  | key t text => exact NeverFires_handleChange h _ t text (NeverFires_fireDue h s t nf)
  | unmount t =>
      obtain ⟨nc, nt, nh⟩ := NeverFires_fireDue h s t nf
      exact ⟨nc, nt, nh⟩

theorem NeverFires_runEvents (h : Nat) (evs : List SLEvent) (s : SLState)
    (nf : NeverFires h s) : NeverFires h (runEvents s evs) := by
  induction evs generalizing s with
  | nil => exact nf
  | cons ev evs ih => exact ih _ (NeverFires_stepEvent h s ev nf)

/-- A keystroke arriving strictly before the pending timer's fire time
cancels it: afterwards its handle is out of the table for good. -/
theorem NeverFires_after_cancel (s : SLState) (e : TimerEntry) (t : Nat)
    (text : String) (inv : Winv s) (he : e ∈ s.timers) (ht : t < e.fireTime) :
    NeverFires e.handle (stepEvent s (SLEvent.key t text)) := by
  have hs : s.timers = [e] := by
    cases hs2 : s.timers with
    | nil => rw [hs2] at he; cases he
    | cons e2 rest =>
        have hlen := inv.len
        rw [hs2] at hlen
        simp only [List.length_cons] at hlen
        have hr : rest = [] := List.length_eq_zero.mp (by omega)
        subst hr
        rw [hs2] at he
        simp only [List.mem_singleton] at he
        rw [he]
  have hnd : decide (e.fireTime ≤ t) = false := decide_eq_false (Nat.not_le.mpr ht)
  have hfd : fireDue s t = { s with timers := [e] } := by
    simp [fireDue, hs, hnd]
  have hinv2 : Winv (fireDue s t) := Winv_fireDue s t inv
  show NeverFires e.handle (handleChange (fireDue s t) t text)
  rw [handleChange_eq_of_inv _ t text hinv2]
  rw [hfd]
  refine ⟨?_, ?_, ?_⟩
  · intro c hc
    exact inv.disj c hc e he
  · intro e2 he2
    simp only [List.mem_singleton] at he2
    subst he2
    exact Nat.ne_of_gt (inv.hlt e he)
  · exact Nat.lt_succ_of_lt (inv.hlt e he)

/-- C8: for every sequence of events on one `SearchableList` instance, at
most one scheduled debounce action is live at any reachable state; and when a
keystroke schedules a new action while a previous one is still pending (its
fire time not yet reached), the previous one is cancelled unconditionally: no
commit carrying its timer handle ever occurs in any continuation of the run,
even after all remaining timers fire. -/
theorem C8_schedule_cancels_pending :
    (∀ evs : List SLEvent, (runEvents initSL evs).timers.length ≤ 1) ∧
    (∀ (evs : List SLEvent) (e : TimerEntry) (t : Nat) (text : String)
        (evs2 : List SLEvent),
      e ∈ (runEvents initSL evs).timers → t < e.fireTime →
      ∀ c ∈ (flushAll (runEvents initSL
          (evs ++ SLEvent.key t text :: evs2))).commits,
        c.handle ≠ e.handle) := by
  have hinv : ∀ evs, Winv (runEvents initSL evs) :=
    fun evs => Winv_runEvents evs initSL Winv_initSL
  constructor
  · exact fun evs => (hinv evs).len
  · intro evs e t text evs2 he ht c hc
    have h1 : NeverFires e.handle
        (stepEvent (runEvents initSL evs) (SLEvent.key t text)) :=
      NeverFires_after_cancel _ e t text (hinv evs) he ht
    have h2 : runEvents initSL (evs ++ SLEvent.key t text :: evs2) =
        runEvents (stepEvent (runEvents initSL evs) (SLEvent.key t text)) evs2 := by
      simp [runEvents, List.foldl_append]
    have h3 := NeverFires_flushAll e.handle _
      (NeverFires_runEvents e.handle evs2 _ h1)
    rw [h2] at hc
    exact h3.1 c hc

end ReactPatterns

